import Mathlib

/-!
Verification of the download-bookkeeping core of `libby_download.py`.

The script intercepts network requests in a browser session.  The handler
`handle_request` (lines 66-124 of the source) extracts audiobook part numbers
from "trigger" URLs with the regex `Part(\d+).mp3` (IGNORECASE), remembers the
last one in the module-global `part_number`, and saves the body of responses
whose URL contains `audioclips.cdn.overdrive.com` as that part's file.  The
main routine `run` drives a forward-discovery click loop and a missing-part
retry loop over the globals `downloaded_parts` and `max_part_number_found`.

The embedding below models the URL matching at the character level (Python
`re.search` semantics for this concrete pattern: leftmost start position, the
greedy `\d+` backtracking from the longest digit run, `.` matching any
character except a newline, `\d` taken as the ASCII digits appearing in URLs),
the handler as a pure transition function on an explicit state record with the
file write as an explicit output, and the loops of `run` as recursive
functions over oracles describing what the browser environment does at each
step.
-/

namespace LibbyDownload

/-- ASCII lower-casing, modelling the case folding `re.IGNORECASE` performs on
the ASCII letters of the patterns `Part` and `mp3`. -/
def lowerC (c : Char) : Char :=
  if 'A' ≤ c ∧ c ≤ 'Z' then Char.ofNat (c.toNat + 32) else c

/-- Consume a literal pattern case-insensitively from the front of a string
(as a character list); returns the remaining characters on success. -/
def stripLitCI : List Char → List Char → Option (List Char)
  | [], s => some s
  | _ :: _, [] => none
  | a :: as, b :: bs => if lowerC a = lowerC b then stripLitCI as bs else none

/-- The literal `Part` of the regex `Part(\d+).mp3`. -/
def partLit : List Char := ['P', 'a', 'r', 't']

/-- The literal `mp3` that follows the `.` in the regex `Part(\d+).mp3`. -/
def mp3Lit : List Char := ['m', 'p', '3']

/-- The literal `.mp3`, used to state what the URL would have to contain if
the `.` of the pattern were an escaped dot. -/
def dotMp3Lit : List Char := ['.', 'm', 'p', '3']

/-- The CDN host substring tested by `handle_request`
(`"audioclips.cdn.overdrive.com" in url`). -/
def cdnLit : List Char := "audioclips.cdn.overdrive.com".toList

/-- Integer value of a digit string, as computed by Python `int()` on the
captured group. -/
def natOfDigits (l : List Char) : ℕ := l.foldl (fun a c => 10 * a + (c.toNat - 48)) 0

/-- After the group `(\d+)` has consumed some digits, the rest of the pattern
is `.` (any character except a newline) followed by the literal `mp3`;
this checks that the remaining characters can satisfy it. -/
def dotTail (t : List Char) : Bool :=
  match t with
  | [] => false
  | c :: r => decide (c ≠ '\n') && (stripLitCI mp3Lit r).isSome

/-- Greedy matching of `(\d+).mp3` once the maximal digit run `ds` and the
characters `tail` after it are known: try consuming `k` digits, then
`k - 1`, ... down to `1`, returning the value of the first group that lets
the rest of the pattern match (Python's backtracking order). -/
def greedyGroup : ℕ → List Char → List Char → Option ℕ
  | 0, _, _ => none
  | k + 1, ds, tail =>
    if dotTail (ds.drop (k + 1) ++ tail) then some (natOfDigits (ds.take (k + 1)))
    else greedyGroup k ds tail

/-- Match `Part(\d+).mp3` (IGNORECASE) at the start of `s`, returning the
value of the captured group. -/
def matchPartAt (s : List Char) : Option ℕ :=
  match stripLitCI partLit s with
  | none => none
  | some rest =>
    greedyGroup (rest.takeWhile Char.isDigit).length
      (rest.takeWhile Char.isDigit) (rest.dropWhile Char.isDigit)

/-- `re.search(r"Part(\d+).mp3", url, re.IGNORECASE)`: try every start
position from the left, returning the group of the first position that
matches. -/
def reSearchPart : List Char → Option ℕ
  | [] => none
  | c :: rest =>
    match matchPartAt (c :: rest) with
    | some n => some n
    | none => reSearchPart rest

/-- Exact (case-sensitive) leading-segment test, for the substring check
`"audioclips.cdn.overdrive.com" in url`. -/
def leadsWith : List Char → List Char → Bool
  | [], _ => true
  | _ :: _, [] => false
  | a :: as, b :: bs => a = b && leadsWith as bs

/-- Python's `pat in s` substring containment. -/
def hasSub (pat : List Char) : List Char → Bool
  | [] => pat.isEmpty
  | c :: rest => leadsWith pat (c :: rest) || hasSub pat rest

/-- The module-global download-tracking state of the script:
`downloaded_parts`, `max_part_number_found` and `part_number`
(lines 13-15 of the source). -/
structure DLState where
  downloaded_parts : Finset ℕ
  max_part_number_found : ℕ
  part_number : ℕ
deriving DecidableEq

/-- The initial global state: `downloaded_parts = set()`,
`max_part_number_found = 0`, `part_number = 00`. -/
def initState : DLState := ⟨∅, 0, 0⟩

/-- The observable data of an intercepted response, with the two failure
modes of the handler's `try` block made explicit: `body = none` models
`response.body()` raising, and `writeOk = false` models the file write
raising.  Bodies are byte lists. -/
structure HttpResponse where
  status : ℕ
  body : Option (List ℕ)
  writeOk : Bool
deriving DecidableEq

/-- An intercepted request: its URL and the result of `request.response()`
(`none` when there is no response object). -/
structure NetRequest where
  url : List Char
  response : Option HttpResponse

/-- `f"Part_{part_number:02d}.mp3"`: zero-padded to width 2. -/
def fileName (n : ℕ) : String :=
  "Part_" ++ (if n < 10 then "0" ++ Nat.repr n else Nat.repr n) ++ ".mp3"

/-- `os.path.join(config['DOWNLOAD_DIRECTORY'], file_name)` for a relative
second component on POSIX. -/
def pathJoin (dir name : String) : String := dir ++ "/" ++ name

/-- The handler `handle_request` (source lines 66-124) as a transition
function.  It takes the configured download directory, the current global
state and the intercepted request; it returns the new global state together
with the completed file write, if any (path and bytes written). -/
def handle_request (dir : String) (s : DLState) (req : NetRequest) :
    DLState × Option (String × List ℕ) :=
  match reSearchPart req.url with
  | some n => ({ s with part_number := n }, none)
  | none =>
    match req.response with
    | none => (s, none)
    | some resp =>
      if hasSub cdnLit req.url then
        if s.part_number ∈ s.downloaded_parts then (s, none)
        else
          match resp.body with
          | none => (s, none)
          | some content =>
            if resp.status = 200 ∧ 0 < content.length then
              if resp.writeOk then
                ({ downloaded_parts := insert s.part_number s.downloaded_parts,
                   max_part_number_found := max s.max_part_number_found s.part_number,
                   part_number := s.part_number },
                 some (pathJoin dir (fileName s.part_number), content))
              else (s, none)
            else (s, none)
      else (s, none)

/-- Sequential processing of a list of intercepted requests, collecting the
file writes in order. -/
def runRequests (dir : String) (s : DLState) : List NetRequest → DLState × List (String × List ℕ)
  | [] => (s, [])
  | r :: rs =>
    ((runRequests dir (handle_request dir s r).1 rs).1,
      (handle_request dir s r).2.toList ++ (runRequests dir (handle_request dir s r).1 rs).2)

/-- The part numbers for which `handle_request` performs a file write, in
order, along a request trace. -/
def writtenParts (dir : String) (s : DLState) : List NetRequest → List ℕ
  | [] => []
  | r :: rs =>
    (if (handle_request dir s r).2.isSome then [s.part_number] else []) ++
      writtenParts dir (handle_request dir s r).1 rs

/-- `downloaded_parts` as it stands after `k` environment steps: at each step
the browser environment (clicks, buffering, the attached handler) may add a
set of parts. -/
def setAfter (dp : Finset ℕ) (env : ℕ → Finset ℕ) : ℕ → Finset ℕ
  | 0 => dp
  | k + 1 => setAfter dp env k ∪ env k

/-- The missing-part computation of `run` (source lines 574-577): iterate `i`
over `range(1, max_part_number_found + 1)` and collect the `i` not in
`downloaded_parts`. -/
def missing_parts (maxN : ℕ) (dp : Finset ℕ) : List ℕ :=
  (List.range' 1 maxN).filter (fun i => decide (i ∉ dp))

/-- `sorted(missing_parts)` (source line 593), the order in which the retry
loop visits the missing parts. -/
def retryOrder (maxN : ℕ) (dp : Finset ℕ) : List ℕ :=
  (missing_parts maxN dp).mergeSort

/-- The `for attempt in range(retries)` loop body for one missing part
(source lines 596-619): each list element is the set of parts the
environment adds to `downloaded_parts` during that attempt's clicks and
sleeps; the loop breaks as soon as the part is found after an attempt.
Returns the resulting set and the number of attempts made. -/
def attemptLoop (p : ℕ) (dp : Finset ℕ) : List (Finset ℕ) → Finset ℕ × ℕ
  | [] => (dp, 0)
  | e :: es =>
    if p ∈ dp ∪ e then (dp ∪ e, 1)
    else ((attemptLoop p (dp ∪ e) es).1, (attemptLoop p (dp ∪ e) es).2 + 1)

/-- Retrieval of one missing part with `retries = 3` (source lines 595-623):
the three potential attempts, the attempt count, and whether the part was
retrieved (`missing_part in downloaded_parts` after the loop). -/
def retrieveMissing (p : ℕ) (dp : Finset ℕ) (env : ℕ → Finset ℕ) : Finset ℕ × ℕ × Bool :=
  ((attemptLoop p dp [env 0, env 1, env 2]).1,
    (attemptLoop p dp [env 0, env 1, env 2]).2,
    decide (p ∈ (attemptLoop p dp [env 0, env 1, env 2]).1))

/-- The value of `no_new_parts_count` after `i` iterations of the forward
pass, assuming every iteration up to there executed: incremented when an
iteration leaves the size of `downloaded_parts` unchanged, reset to `0`
otherwise (source lines 560-567). -/
def nnpCount (dp : Finset ℕ) (env : ℕ → Finset ℕ) : ℕ → ℕ
  | 0 => 0
  | i + 1 =>
    if (setAfter dp env (i + 1)).card = (setAfter dp env i).card then nnpCount dp env i + 1
    else 0

/-- The forward-discovery loop of `run` (source lines 544-567).  `fuel` is
the number of `range(MAX_FORWARD_CLICKS)` iterations left, `i` the current
iteration index, `nnc` the current `no_new_parts_count`, `dp` the current
`downloaded_parts`.  `btn i` tells whether the Next-Chapter click of
iteration `i` succeeds (`false` models the `PlaywrightTimeoutError` /
exception `break`), and `env i` is the set of parts the handler adds during
iteration `i`'s click and sleep.  Returns the final set and the number of
click iterations executed. -/
def fwdGo (env : ℕ → Finset ℕ) (btn : ℕ → Bool) : ℕ → ℕ → ℕ → Finset ℕ → Finset ℕ × ℕ
  | 0, i, _, dp => (dp, i)
  | fuel + 1, i, nnc, dp =>
    if btn i then
      if (dp ∪ env i).card = dp.card then
        if 10 ≤ nnc + 1 then (dp ∪ env i, i + 1)
        else fwdGo env btn fuel (i + 1) (nnc + 1) (dp ∪ env i)
      else fwdGo env btn fuel (i + 1) 0 (dp ∪ env i)
    else (dp, i)

/-- The forward pass: `MAX_FORWARD_CLICKS = 500` iterations starting with
`no_new_parts_count = 0` (source lines 536-544). -/
def forwardPass (env : ℕ → Finset ℕ) (btn : ℕ → Bool) (dp0 : Finset ℕ) : Finset ℕ × ℕ :=
  fwdGo env btn 500 0 0 dp0

/-- The configuration fields `load_config` requires (source line 38); `none`
models an absent key, `some ""` a present but empty value. -/
structure LibbyConfig where
  card : Option String
  password : Option String
  library : Option String
  dir : Option String
deriving DecidableEq

/-- Python truthiness of `field in config and config[field]` for a string
field: present and non-empty. -/
def truthy : Option String → Bool
  | none => false
  | some s => !(s == "")

/-- The `DOWNLOAD_DIRECTORY` prompt `input(...) or default_dir`: an empty
input falls back to the default (source lines 48-49). -/
def promptDir (inDir defaultDir : String) : String := if inDir = "" then defaultDir else inDir

/-- `load_config` (source lines 22-57) after the initial file read: `init` is
the parsed configuration (the empty configuration when the file is missing or
corrupted), `inCard`/`inPass`/`inLib`/`inDir` are the user's answers to the
four possible prompts, `dirExists` is the filesystem oracle for
`os.path.exists`.  Returns the final configuration, the list of
configurations passed to `save_config` (one save after each prompt), and
whether `os.makedirs` was called to create the download directory. -/
def load_config (init : LibbyConfig) (inCard inPass inLib inDir defaultDir : String)
    (dirExists : String → Bool) : LibbyConfig × List LibbyConfig × Bool :=
  let c1 := if truthy init.card then init else { init with card := some inCard }
  let s1 : List LibbyConfig := if truthy init.card then [] else [c1]
  let c2 := if truthy c1.password then c1 else { c1 with password := some inPass }
  let s2 := s1 ++ (if truthy c1.password then [] else [c2])
  let c3 := if truthy c2.library then c2 else { c2 with library := some inLib }
  let s3 := s2 ++ (if truthy c2.library then [] else [c3])
  let c4 := if truthy c3.dir then c3 else { c3 with dir := some (promptDir inDir defaultDir) }
  let s4 := s3 ++ (if truthy c3.dir then [] else [c4])
  (c4, s4, !dirExists (c4.dir.getD ""))

/-! ### Case facts about `handle_request` -/

lemma hr_trigger (dir : String) (s : DLState) (req : NetRequest) (n : ℕ)
    (h : reSearchPart req.url = some n) :
    handle_request dir s req = ({ s with part_number := n }, none) := by
  simp [handle_request, h]

lemma hr_skip (dir : String) (s : DLState) (req : NetRequest)
    (h : reSearchPart req.url = none) (hmem : s.part_number ∈ s.downloaded_parts) :
    handle_request dir s req = (s, none) := by
  cases hresp : req.response with
  | none => simp [handle_request, h, hresp]
  | some resp => simp [handle_request, h, hresp, hmem]

lemma hr_success (dir : String) (s : DLState) (req : NetRequest) (resp : HttpResponse)
    (content : List ℕ)
    (h : reSearchPart req.url = none) (hresp : req.response = some resp)
    (hcdn : hasSub cdnLit req.url = true) (hmem : s.part_number ∉ s.downloaded_parts)
    (hbody : resp.body = some content) (hst : resp.status = 200) (hlen : 0 < content.length)
    (hw : resp.writeOk = true) :
    handle_request dir s req =
      (⟨insert s.part_number s.downloaded_parts, max s.max_part_number_found s.part_number,
          s.part_number⟩,
        some (pathJoin dir (fileName s.part_number), content)) := by
  simp [handle_request, h, hresp, hcdn, hmem, hbody, hst, hlen, hw]

/-- Exhaustive description of what `handle_request` can do: record a trigger
part number, do nothing, or perform a successful download. -/
lemma hr_split (dir : String) (s : DLState) (req : NetRequest) :
    (∃ n, reSearchPart req.url = some n ∧
        handle_request dir s req = ({ s with part_number := n }, none)) ∨
    handle_request dir s req = (s, none) ∨
    (∃ resp content, req.response = some resp ∧ reSearchPart req.url = none ∧
        hasSub cdnLit req.url = true ∧ s.part_number ∉ s.downloaded_parts ∧
        resp.body = some content ∧ resp.status = 200 ∧ 0 < content.length ∧
        resp.writeOk = true ∧
        handle_request dir s req =
          (⟨insert s.part_number s.downloaded_parts,
              max s.max_part_number_found s.part_number, s.part_number⟩,
            some (pathJoin dir (fileName s.part_number), content))) := by
  cases hm : reSearchPart req.url with
  | some n => exact Or.inl ⟨n, rfl, hr_trigger dir s req n hm⟩
  | none =>
    cases hresp : req.response with
    | none => exact Or.inr (Or.inl (by simp [handle_request, hm, hresp]))
    | some resp =>
      by_cases hcdn : hasSub cdnLit req.url = true
      · by_cases hmem : s.part_number ∈ s.downloaded_parts
        · exact Or.inr (Or.inl (hr_skip dir s req hm hmem))
        · cases hbody : resp.body with
          | none => exact Or.inr (Or.inl (by simp [handle_request, hm, hresp, hcdn, hmem, hbody]))
          | some content =>
            by_cases hcond : resp.status = 200 ∧ 0 < content.length
            · by_cases hw : resp.writeOk = true
              · exact Or.inr (Or.inr ⟨resp, content, rfl, rfl, hcdn, hmem, hbody, hcond.1,
                  hcond.2, hw, hr_success dir s req resp content hm hresp hcdn hmem hbody
                    hcond.1 hcond.2 hw⟩)
              · exact Or.inr (Or.inl (by
                  simp [handle_request, hm, hresp, hcdn, hmem, hbody, hcond, hw]))
            · exact Or.inr (Or.inl (by
                simp [handle_request, hm, hresp, hcdn, hmem, hbody, hcond]))
      · exact Or.inr (Or.inl (by simp [handle_request, hm, hresp, hcdn]))

/-- `downloaded_parts` only grows. -/
lemma hr_mono (dir : String) (s : DLState) (req : NetRequest) :
    s.downloaded_parts ⊆ (handle_request dir s req).1.downloaded_parts := by
  rcases hr_split dir s req with ⟨n, _, h⟩ | h | ⟨resp, content, _, _, _, _, _, _, _, _, h⟩ <;>
    simp [h, Finset.subset_insert]

/-- A file write happens only for a part not yet downloaded, and records it. -/
lemma hr_write (dir : String) (s : DLState) (req : NetRequest)
    (h : (handle_request dir s req).2.isSome = true) :
    s.part_number ∉ s.downloaded_parts ∧
      (handle_request dir s req).1.downloaded_parts = insert s.part_number s.downloaded_parts := by
  rcases hr_split dir s req with ⟨n, _, he⟩ | he | ⟨resp, content, _, _, _, hmem, _, _, _, _, he⟩ <;>
    rw [he] at h ⊢ <;> simp_all

/-- Parts already downloaded never reappear among the written parts. -/
lemma not_mem_writtenParts (dir : String) (p : ℕ) :
    ∀ (rs : List NetRequest) (s : DLState), p ∈ s.downloaded_parts →
      p ∉ writtenParts dir s rs := by
  intro rs
  induction rs with
  | nil => intro s _ h; simp [writtenParts] at h
  | cons r rs ih =>
    intro s hp h
    rw [writtenParts, List.mem_append] at h
    rcases h with h | h
    · by_cases hw : (handle_request dir s r).2.isSome = true
      · rw [if_pos hw] at h
        rcases List.mem_singleton.mp h with rfl
        exact (hr_write dir s r hw).1 hp
      · rw [if_neg hw] at h
        exact absurd h (List.not_mem_nil p)
    · exact ih (handle_request dir s r).1 (hr_mono dir s r hp) h

/-- Along any request trace, each part number is written at most once. -/
lemma writtenParts_nodup (dir : String) :
    ∀ (rs : List NetRequest) (s : DLState), (writtenParts dir s rs).Nodup := by
  intro rs
  induction rs with
  | nil => intro s; simp [writtenParts]
  | cons r rs ih =>
    intro s
    rw [writtenParts]
    by_cases hw : (handle_request dir s r).2.isSome = true
    · rw [if_pos hw]
      refine List.Nodup.cons ?_ (ih _)
      exact not_mem_writtenParts dir s.part_number rs (handle_request dir s r).1
        (by rw [(hr_write dir s r hw).2]; exact Finset.mem_insert_self _ _)
    · rw [if_neg hw]
      simpa using ih (handle_request dir s r).1

/-- Any file write performed by `handle_request` is named after the part
number recorded in the state it runs from. -/
lemma hr_path (dir : String) (s : DLState) (req : NetRequest) (pth : String) (content : List ℕ)
    (h : (handle_request dir s req).2 = some (pth, content)) :
    pth = pathJoin dir (fileName s.part_number) := by
  rcases hr_split dir s req with ⟨n, _, he⟩ | he | ⟨resp, c, _, _, _, _, _, _, _, _, he⟩ <;>
    rw [he] at h
  · exact absurd h (by simp)
  · exact absurd h (by simp)
  · exact (Prod.mk.injEq _ _ _ _ ▸ Option.some.injEq _ _ ▸ h).1.symm ▸ rfl

/-- A concrete CDN URL used in the counterexamples. -/
def cdnUrl : List Char := "https://audioclips.cdn.overdrive.com/clip".toList

/-- **C1, counterexample.**  A CDN response with status 403: the request URL
does not match the part pattern and contains the CDN host, yet `handle_request`
saves nothing and leaves the state unchanged, against the claim's unconditional
"its body is saved as that part's file". -/
theorem claim_C1_counterexample :
    reSearchPart cdnUrl = none ∧ hasSub cdnLit cdnUrl = true ∧
      handle_request "dl" initState ⟨cdnUrl, some ⟨403, some [1, 2], true⟩⟩ =
        (initState, none) := by
  decide

/-- **C1 (amended).**  For every intercepted request: if the URL matches the
pattern `Part(\d+).mp3` (case-insensitively, the dot matching any non-newline
character), the matched digit group is recorded as the current part number and
the handler returns without downloading; otherwise, if the request has a
response and the URL contains `audioclips.cdn.overdrive.com`, the response is
attributed to the most recently recorded part number: when that part is not
already downloaded and the response has status 200, a non-empty body and the
write succeeds, the body is saved as that part's file, and any file that does
get written is named after the recorded part number. -/
theorem claim_C1_amended (dir : String) (s : DLState) (req : NetRequest) :
    (∀ n, reSearchPart req.url = some n →
        handle_request dir s req = ({ s with part_number := n }, none)) ∧
    (∀ resp content, reSearchPart req.url = none → req.response = some resp →
        hasSub cdnLit req.url = true → s.part_number ∉ s.downloaded_parts →
        resp.body = some content → resp.status = 200 → 0 < content.length →
        resp.writeOk = true →
        handle_request dir s req =
          (⟨insert s.part_number s.downloaded_parts,
              max s.max_part_number_found s.part_number, s.part_number⟩,
            some (pathJoin dir (fileName s.part_number), content))) ∧
    (∀ pth content, (handle_request dir s req).2 = some (pth, content) →
        pth = pathJoin dir (fileName s.part_number)) :=
  ⟨fun n h => hr_trigger dir s req n h,
    fun resp content h1 h2 h3 h4 h5 h6 h7 h8 =>
      hr_success dir s req resp content h1 h2 h3 h4 h5 h6 h7 h8,
    fun pth content h => hr_path dir s req pth content h⟩

/-- **C1 witness.**  The amended claim evaluated on a trigger request. -/
theorem claim_C1_witness :
    handle_request "dl" initState ⟨"xPart5.mp3".toList, none⟩ = (⟨∅, 0, 5⟩, none) :=
  (claim_C1_amended "dl" initState ⟨"xPart5.mp3".toList, none⟩).1 5 (by decide)

/-- **C2.**  Last write wins: after processing any block of trigger requests
ending in one that records `n`, the recorded part number is `n` (earlier
triggers are overwritten) and `downloaded_parts` is untouched; a CDN response
handled next is attributed to `n` (any file it writes is `n`'s file).  Before
any trigger, the recorded part number is `0`, and a CDN response processed
from the initial state is attributed to part `0`. -/
theorem claim_C2 (dir : String) (s : DLState) (ts : List NetRequest) (t' c : NetRequest)
    (n : ℕ)
    (hts : ∀ t ∈ ts, (reSearchPart t.url).isSome = true)
    (ht' : reSearchPart t'.url = some n) :
    (runRequests dir s (ts ++ [t'])).1 =
      ⟨s.downloaded_parts, s.max_part_number_found, n⟩ ∧
    (∀ pth content,
        (handle_request dir (runRequests dir s (ts ++ [t'])).1 c).2 = some (pth, content) →
        pth = pathJoin dir (fileName n)) ∧
    initState.part_number = 0 ∧
    (∀ pth content, (handle_request dir initState c).2 = some (pth, content) →
        pth = pathJoin dir (fileName 0)) := by
  have key : ∀ (ts : List NetRequest) (s : DLState),
      (∀ t ∈ ts, (reSearchPart t.url).isSome = true) →
      (runRequests dir s (ts ++ [t'])).1 =
        ⟨s.downloaded_parts, s.max_part_number_found, n⟩ := by
    intro ts
    induction ts with
    | nil =>
      intro s _
      simp [runRequests, hr_trigger dir s t' n ht']
    | cons t ts ih =>
      intro s hall
      obtain ⟨m, hm⟩ := Option.isSome_iff_exists.mp (hall t (List.mem_cons_self t ts))
      rw [List.cons_append, runRequests, hr_trigger dir s t m hm]
      exact ih { s with part_number := m } fun u hu => hall u (List.mem_cons_of_mem t hu)
  refine ⟨key ts s hts, ?_, rfl, ?_⟩
  · intro pth content h
    have h2 := hr_path dir _ c pth content h
    rw [key ts s hts] at h2
    exact h2
  · intro pth content h
    exact hr_path dir initState c pth content h

/-- **C2 witness.** -/
theorem claim_C2_witness :
    (runRequests "dl" initState
        ([⟨"Part2.mp3".toList, none⟩] ++ [⟨"Part9.mp3".toList, none⟩])).1 =
      ⟨∅, 0, 9⟩ :=
  (claim_C2 "dl" initState [⟨"Part2.mp3".toList, none⟩] ⟨"Part9.mp3".toList, none⟩
      ⟨cdnUrl, none⟩ 9 (by decide) (by decide)).1

/-- **C3, counterexample.**  A CDN response whose attributed part is already
in `downloaded_parts`: status is 200, the body is non-empty, the write would
succeed, yet nothing is added or written — the claimed "if and only if" fails
in the if direction. -/
theorem claim_C3_counterexample :
    (⟨{5}, 5, 5⟩ : DLState).part_number ∈ (⟨{5}, 5, 5⟩ : DLState).downloaded_parts ∧
    reSearchPart cdnUrl = none ∧ hasSub cdnLit cdnUrl = true ∧
      handle_request "dl" ⟨{5}, 5, 5⟩ ⟨cdnUrl, some ⟨200, some [1], true⟩⟩ =
        (⟨{5}, 5, 5⟩, none) := by
  decide

/-- **C3 (amended).**  For a CDN-attributed response whose attributed part
number is not already in `downloaded_parts`: the part is added (a file write
happens) if and only if the status is 200, the body is non-empty, and the
write raises no exception; every write stores the response body under the
part's file path in the configured directory and records the part in
`downloaded_parts` and `max_part_number_found`; in every other case the state
is unchanged. -/
theorem claim_C3_amended (dir : String) (s : DLState) (url : List Char) (resp : HttpResponse)
    (hm : reSearchPart url = none) (hcdn : hasSub cdnLit url = true)
    (hnew : s.part_number ∉ s.downloaded_parts) :
    ((handle_request dir s ⟨url, some resp⟩).2.isSome = true ↔
        resp.status = 200 ∧ ∃ content, resp.body = some content ∧ content ≠ [] ∧
          resp.writeOk = true) ∧
    (∀ pth content, (handle_request dir s ⟨url, some resp⟩).2 = some (pth, content) →
        pth = pathJoin dir (fileName s.part_number) ∧ resp.body = some content ∧
        (handle_request dir s ⟨url, some resp⟩).1.downloaded_parts =
          insert s.part_number s.downloaded_parts ∧
        (handle_request dir s ⟨url, some resp⟩).1.max_part_number_found =
          max s.max_part_number_found s.part_number) ∧
    ((handle_request dir s ⟨url, some resp⟩).2 = none →
        (handle_request dir s ⟨url, some resp⟩).1 = s) := by
  cases hbody : resp.body with
  | none =>
    have he : handle_request dir s ⟨url, some resp⟩ = (s, none) := by
      simp [handle_request, hm, hcdn, hnew, hbody]
    rw [he]
    simp [hbody]
  | some content =>
    by_cases hcond : resp.status = 200 ∧ 0 < content.length
    · by_cases hw : resp.writeOk = true
      · have he := hr_success dir s ⟨url, some resp⟩ resp content hm rfl hcdn hnew hbody
          hcond.1 hcond.2 hw
        rw [he]
        refine ⟨by simp [hcond.1, hbody, hw, List.length_pos.mp hcond.2], ?_, by simp⟩
        intro pth c h
        obtain ⟨h1, h2⟩ := Prod.mk.injEq _ _ _ _ ▸ Option.some.injEq _ _ ▸ h
        exact ⟨h1.symm, h2 ▸ rfl, rfl, rfl⟩
      · have he : handle_request dir s ⟨url, some resp⟩ = (s, none) := by
          simp [handle_request, hm, hcdn, hnew, hbody, hcond, hw]
        rw [he]
        simp [hbody, hw]
    · have he : handle_request dir s ⟨url, some resp⟩ = (s, none) := by
        simp [handle_request, hm, hcdn, hnew, hbody, hcond]
      rw [he]
      rw [Classical.not_and_iff_or_not_not] at hcond
      rcases hcond with hst | hlen
      · simp [hbody, hst]
      · have : content = [] := by
          cases content with
          | nil => rfl
          | cons a l => exact absurd (by simp) hlen
        simp [hbody, this]

/-- **C3 witness.**  The amended claim evaluated on a successful download. -/
theorem claim_C3_witness :
    (handle_request "dl" initState ⟨cdnUrl, some ⟨200, some [7], true⟩⟩).2.isSome = true :=
  (claim_C3_amended "dl" initState cdnUrl ⟨200, some [7], true⟩ (by decide) (by decide)
      (by decide)).1.mpr ⟨rfl, [7], rfl, by decide, rfl⟩

/-- **C5.**  Once a part number is in `downloaded_parts`, any later request
attributed to it (in particular any CDN response) is skipped: the handler
writes nothing and leaves the state unchanged; consequently, along any request
trace, each part number has at most one recorded successful download. -/
theorem claim_C5 :
    (∀ (dir : String) (s : DLState) (req : NetRequest),
        reSearchPart req.url = none → s.part_number ∈ s.downloaded_parts →
        handle_request dir s req = (s, none)) ∧
    (∀ (dir : String) (s : DLState) (rs : List NetRequest),
        (writtenParts dir s rs).Nodup) :=
  ⟨fun dir s req h hmem => hr_skip dir s req h hmem,
    fun dir s rs => writtenParts_nodup dir rs s⟩

/-- **C5 witness.**  The skip behaviour evaluated on a concrete state. -/
theorem claim_C5_witness :
    handle_request "dl" ⟨{3}, 3, 3⟩ ⟨cdnUrl, some ⟨200, some [1], true⟩⟩ =
      (⟨{3}, 3, 3⟩, none) :=
  claim_C5.1 "dl" ⟨{3}, 3, 3⟩ ⟨cdnUrl, some ⟨200, some [1], true⟩⟩ (by decide) (by decide)

/-- The relation between `max_part_number_found` and `downloaded_parts`
maintained by the script: the counter is the supremum of the set (`0` for the
empty set). -/
def dlInv (s : DLState) : Prop :=
  s.max_part_number_found = s.downloaded_parts.sup id

/-- `handle_request` preserves `dlInv`. -/
lemma hr_inv (dir : String) (s : DLState) (req : NetRequest) (h : dlInv s) :
    dlInv (handle_request dir s req).1 := by
  rcases hr_split dir s req with ⟨n, _, he⟩ | he | ⟨resp, content, _, _, _, _, _, _, _, _, he⟩ <;>
    rw [he]
  · exact h
  · exact h
  · show max s.max_part_number_found s.part_number = _
    have h' : s.max_part_number_found = s.downloaded_parts.sup id := h
    rw [Finset.sup_insert, ← h']
    exact (sup_eq_max.trans (Nat.max_comm _ _)).symm

/-- **C8.**  `max_part_number_found` always equals the maximum of
`downloaded_parts` (and `0` when the set is empty): the invariant holds
initially, is preserved by every `handle_request` step, and therefore holds
after any request trace; under it the counter is a member of the non-empty
set and an upper bound of the set, and is `0` on the empty set. -/
theorem claim_C8 :
    dlInv initState ∧
    (∀ (dir : String) (s : DLState) (req : NetRequest), dlInv s →
        dlInv (handle_request dir s req).1) ∧
    (∀ (dir : String) (rs : List NetRequest), dlInv (runRequests dir initState rs).1) ∧
    (∀ s : DLState, dlInv s → s.downloaded_parts.Nonempty →
        s.max_part_number_found ∈ s.downloaded_parts ∧
          ∀ n ∈ s.downloaded_parts, n ≤ s.max_part_number_found) ∧
    (∀ s : DLState, dlInv s → s.downloaded_parts = ∅ → s.max_part_number_found = 0) := by
  have hrun : ∀ (dir : String) (rs : List NetRequest) (s : DLState), dlInv s →
      dlInv (runRequests dir s rs).1 := by
    intro dir rs
    induction rs with
    | nil => intro s h; exact h
    | cons r rs ih => intro s h; exact ih _ (hr_inv dir s r h)
  refine ⟨rfl, fun dir s req h => hr_inv dir s req h,
    fun dir rs => hrun dir rs initState rfl, ?_, ?_⟩
  · intro s h hne
    obtain ⟨b, hb, hsup⟩ := Finset.exists_mem_eq_sup s.downloaded_parts hne id
    constructor
    · rw [dlInv] at h
      rw [h, hsup]
      exact hb
    · intro n hn
      rw [dlInv] at h
      rw [h]
      exact Finset.le_sup (f := id) hn
  · intro s h he
    rw [dlInv, he] at h
    simpa using h

/-- **C8 witness.**  Preservation applied to a concrete successful download
from the initial state. -/
theorem claim_C8_witness :
    dlInv (handle_request "dl" initState ⟨cdnUrl, some ⟨200, some [7], true⟩⟩).1 :=
  claim_C8.2.1 "dl" initState ⟨cdnUrl, some ⟨200, some [7], true⟩⟩ rfl

/-! ### The extraction condition of the regex `Part(\d+).mp3` (claim C4) -/

/-- The literal pattern of the spec's words, tested at the start of `s`:
`Part` (case-insensitively), then one or more digits, then the literal
`.mp3` (case-insensitively). -/
def litPartAt (s : List Char) : Bool :=
  match stripLitCI partLit s with
  | none => false
  | some rest =>
    !(rest.takeWhile Char.isDigit).isEmpty &&
      (stripLitCI dotMp3Lit (rest.dropWhile Char.isDigit)).isSome

/-- The spec's extraction condition: the URL contains `Part` followed by one
or more digits followed by `.mp3`, matched case-insensitively. -/
def hasLitPartPattern : List Char → Bool
  | [] => false
  | c :: rest => litPartAt (c :: rest) || hasLitPartPattern rest

/-- What the code's regex actually requires, as a declarative decomposition:
`Part` case-insensitively, one or more digits, one character that is not a
newline, then `mp3` case-insensitively, anywhere in the URL. -/
def LoosePat (u : List Char) : Prop :=
  ∃ (a p ds : List Char) (c : Char) (m b : List Char),
    u = a ++ (p ++ (ds ++ c :: (m ++ b))) ∧
    p.map lowerC = partLit.map lowerC ∧
    ds ≠ [] ∧ (∀ d ∈ ds, d.isDigit = true) ∧
    c ≠ '\n' ∧
    m.map lowerC = mp3Lit.map lowerC

/-- The same decomposition anchored at the start of the string. -/
def AtPat (s : List Char) : Prop :=
  ∃ (p ds : List Char) (c : Char) (m b : List Char),
    s = p ++ (ds ++ c :: (m ++ b)) ∧
    p.map lowerC = partLit.map lowerC ∧
    ds ≠ [] ∧ (∀ d ∈ ds, d.isDigit = true) ∧
    c ≠ '\n' ∧
    m.map lowerC = mp3Lit.map lowerC

lemma stripLitCI_some (lit : List Char) : ∀ s r, stripLitCI lit s = some r →
    ∃ p, s = p ++ r ∧ p.map lowerC = lit.map lowerC := by
  induction lit with
  | nil =>
    intro s r h
    simp only [stripLitCI, Option.some.injEq] at h
    exact ⟨[], by simp [h], by simp⟩
  | cons a as ih =>
    intro s r h
    cases s with
    | nil => simp [stripLitCI] at h
    | cons b bs =>
      rw [stripLitCI] at h
      by_cases hab : lowerC a = lowerC b
      · rw [if_pos hab] at h
        obtain ⟨p, hp1, hp2⟩ := ih bs r h
        exact ⟨b :: p, by simp [hp1], by simp [hp2, hab]⟩
      · rw [if_neg hab] at h
        exact absurd h (by simp)

lemma stripLitCI_append (lit : List Char) : ∀ p r, p.map lowerC = lit.map lowerC →
    stripLitCI lit (p ++ r) = some r := by
  induction lit with
  | nil =>
    intro p r h
    have hp : p = [] := by simpa using h
    simp [hp, stripLitCI]
  | cons a as ih =>
    intro p r h
    cases p with
    | nil => simp at h
    | cons x xs =>
      simp only [List.map_cons, List.cons.injEq] at h
      rw [List.cons_append, stripLitCI, if_pos h.1.symm]
      exact ih xs r h.2

lemma dotTail_iff (t : List Char) : dotTail t = true ↔
    ∃ c m b, t = c :: (m ++ b) ∧ c ≠ '\n' ∧ m.map lowerC = mp3Lit.map lowerC := by
  cases t with
  | nil =>
    constructor
    · intro h; exact absurd h (by simp [dotTail])
    · rintro ⟨c, m, b, h, -, -⟩; exact absurd h (by simp)
  | cons c r =>
    constructor
    · intro h
      rw [dotTail, Bool.and_eq_true, decide_eq_true_iff] at h
      obtain ⟨b, hb⟩ := Option.isSome_iff_exists.mp h.2
      obtain ⟨m, hm1, hm2⟩ := stripLitCI_some mp3Lit r b hb
      exact ⟨c, m, b, by rw [hm1], h.1, hm2⟩
    · rintro ⟨c', m, b, ht, hc, hm⟩
      obtain ⟨rfl, rfl⟩ : c = c' ∧ r = m ++ b := by
        injection ht with h1 h2; exact ⟨h1, h2⟩
      rw [dotTail, Bool.and_eq_true, decide_eq_true_iff]
      exact ⟨hc, by rw [stripLitCI_append mp3Lit m b hm]; rfl⟩

lemma greedyGroup_isSome (ds tail : List Char) : ∀ k,
    (greedyGroup k ds tail).isSome = true ↔
      ∃ j, 1 ≤ j ∧ j ≤ k ∧ dotTail (ds.drop j ++ tail) = true := by
  intro k
  induction k with
  | zero =>
    constructor
    · intro h; exact absurd h (by simp [greedyGroup])
    · rintro ⟨j, h1, h2, -⟩; omega
  | succ k ih =>
    rw [greedyGroup]
    by_cases hd : dotTail (ds.drop (k + 1) ++ tail) = true
    · rw [if_pos hd]
      exact ⟨fun _ => ⟨k + 1, by omega, le_refl _, hd⟩, fun _ => rfl⟩
    · rw [if_neg hd, ih]
      constructor
      · rintro ⟨j, h1, h2, h3⟩; exact ⟨j, h1, by omega, h3⟩
      · rintro ⟨j, h1, h2, h3⟩
        rcases Nat.lt_or_ge j (k + 1) with hlt | hge
        · exact ⟨j, h1, by omega, h3⟩
        · have hj : j = k + 1 := by omega
          exact absurd (hj ▸ h3) hd

lemma takeWhile_append_all (p : Char → Bool) :
    ∀ (l t : List Char), (∀ a ∈ l, p a = true) →
      (l ++ t).takeWhile p = l ++ t.takeWhile p := by
  intro l
  induction l with
  | nil => intro t _; simp
  | cons x xs ih =>
    intro t h
    simp [List.takeWhile_cons, h x (List.mem_cons_self x xs),
      ih t fun a ha => h a (List.mem_cons_of_mem x ha)]

lemma dropWhile_append_all (p : Char → Bool) :
    ∀ (l t : List Char), (∀ a ∈ l, p a = true) →
      (l ++ t).dropWhile p = t.dropWhile p := by
  intro l
  induction l with
  | nil => intro t _; simp
  | cons x xs ih =>
    intro t h
    simp [List.dropWhile_cons, h x (List.mem_cons_self x xs),
      ih t fun a ha => h a (List.mem_cons_of_mem x ha)]

lemma matchPartAt_isSome (s : List Char) : (matchPartAt s).isSome = true ↔ AtPat s := by
  constructor
  · intro h
    rw [matchPartAt] at h
    cases hst : stripLitCI partLit s with
    | none => rw [hst] at h; simp at h
    | some rest =>
      rw [hst] at h
      obtain ⟨p, hs, hp⟩ := stripLitCI_some partLit s rest hst
      obtain ⟨j, hj1, hj2, hj3⟩ := (greedyGroup_isSome _ _ _).mp h
      obtain ⟨c, m, b, heq, hc, hm⟩ := (dotTail_iff _).mp hj3
      refine ⟨p, (rest.takeWhile Char.isDigit).take j, c, m, b, ?_, hp, ?_, ?_, hc, hm⟩
      · rw [hs]
        congr 1
        calc rest = rest.takeWhile Char.isDigit ++ rest.dropWhile Char.isDigit :=
              (List.takeWhile_append_dropWhile Char.isDigit rest).symm
          _ = ((rest.takeWhile Char.isDigit).take j ++ (rest.takeWhile Char.isDigit).drop j) ++
                rest.dropWhile Char.isDigit := by rw [List.take_append_drop]
          _ = (rest.takeWhile Char.isDigit).take j ++
                ((rest.takeWhile Char.isDigit).drop j ++ rest.dropWhile Char.isDigit) := by
              rw [List.append_assoc]
          _ = (rest.takeWhile Char.isDigit).take j ++ (c :: (m ++ b)) := by rw [heq]
      · refine List.ne_nil_of_length_pos ?_
        rw [List.length_take]
        omega
      · intro d hd
        exact List.mem_takeWhile_imp (List.mem_of_mem_take hd)
  · rintro ⟨p, ds, c, m, b, hs, hp, hds, hdig, hc, hm⟩
    rw [matchPartAt]
    have hstrip : stripLitCI partLit s = some (ds ++ c :: (m ++ b)) := by
      rw [hs]; exact stripLitCI_append partLit p _ hp
    rw [hstrip]
    have htw : (ds ++ c :: (m ++ b)).takeWhile Char.isDigit =
        ds ++ (c :: (m ++ b)).takeWhile Char.isDigit := takeWhile_append_all _ ds _ hdig
    have hdw : (ds ++ c :: (m ++ b)).dropWhile Char.isDigit =
        (c :: (m ++ b)).dropWhile Char.isDigit := dropWhile_append_all _ ds _ hdig
    rw [greedyGroup_isSome]
    refine ⟨ds.length, ?_, ?_, ?_⟩
    · have := List.length_pos.mpr hds
      omega
    · rw [htw, List.length_append]
      omega
    · rw [htw, hdw, List.drop_left ds, List.takeWhile_append_dropWhile]
      exact (dotTail_iff _).mpr ⟨c, m, b, rfl, hc, hm⟩

lemma reSearchPart_isSome (u : List Char) : (reSearchPart u).isSome = true ↔
    ∃ a t, u = a ++ t ∧ (matchPartAt t).isSome = true := by
  induction u with
  | nil =>
    constructor
    · intro h; exact absurd h (by simp [reSearchPart])
    · rintro ⟨a, t, he, hm⟩
      have ht : t = [] := (List.append_eq_nil.mp he.symm).2
      rw [ht] at hm
      exact absurd hm (by decide)
  | cons x xs ih =>
    rw [reSearchPart]
    cases hmx : matchPartAt (x :: xs) with
    | some n =>
      exact ⟨fun _ => ⟨[], x :: xs, rfl, by rw [hmx]; rfl⟩, fun _ => rfl⟩
    | none =>
      rw [ih]
      constructor
      · rintro ⟨a, t, he, hm⟩; exact ⟨x :: a, t, by rw [he, List.cons_append], hm⟩
      · rintro ⟨a, t, he, hm⟩
        cases a with
        | nil =>
          rw [List.nil_append] at he
          rw [← he, hmx] at hm
          exact absurd hm (by simp)
        | cons y ys =>
          rw [List.cons_append] at he
          injection he with h1 h2
          exact ⟨ys, t, h2, hm⟩

/-- **C4, counterexample.**  The URL `Part12mp3` does not contain `Part`
followed by digits followed by `.mp3` (there is no dot at all), yet
`handle_request`'s search extracts a part number — and the value it extracts
is `1`, a proper prefix of the digit run `12`, because the unescaped `.` of
the pattern consumes the digit `2`. -/
theorem claim_C4_counterexample :
    reSearchPart "Part12mp3".toList = some 1 ∧
      hasLitPartPattern "Part12mp3".toList = false := by
  decide

/-- **C4 (amended).**  `handle_request` extracts a part number from a request
URL exactly when the URL contains, case-insensitively, `Part` followed by one
or more digits followed by one character other than a newline followed by
`mp3` (the dot of the regex `Part(\d+).mp3` is unescaped); the extracted
number is the digit group of the leftmost, greedy backtracking match, which
can be a proper prefix of the URL's digit run. -/
theorem claim_C4_amended (u : List Char) : (reSearchPart u).isSome = true ↔ LoosePat u := by
  rw [reSearchPart_isSome]
  constructor
  · rintro ⟨a, t, he, hm⟩
    obtain ⟨p, ds, c, m, b, ht, h1, h2, h3, h4, h5⟩ := (matchPartAt_isSome t).mp hm
    exact ⟨a, p, ds, c, m, b, by rw [he, ht], h1, h2, h3, h4, h5⟩
  · rintro ⟨a, p, ds, c, m, b, he, h1, h2, h3, h4, h5⟩
    exact ⟨a, p ++ (ds ++ c :: (m ++ b)), he,
      (matchPartAt_isSome _).mpr ⟨p, ds, c, m, b, rfl, h1, h2, h3, h4, h5⟩⟩

/-! ### The missing-part computation and retry loop of `run` -/

/-- **C6.**  The missing-parts list contains exactly the integers `i` with
`1 ≤ i ≤ max_part_number_found` and `i ∉ downloaded_parts`; `sorted(...)`
leaves it unchanged, and the retry loop visits it in strictly ascending
order. -/
theorem claim_C6 (maxN : ℕ) (dp : Finset ℕ) :
    (∀ i, i ∈ missing_parts maxN dp ↔ 1 ≤ i ∧ i ≤ maxN ∧ i ∉ dp) ∧
    retryOrder maxN dp = missing_parts maxN dp ∧
    (retryOrder maxN dp).Sorted (· < ·) := by
  have hmem : ∀ i, i ∈ missing_parts maxN dp ↔ 1 ≤ i ∧ i ≤ maxN ∧ i ∉ dp := by
    intro i
    rw [missing_parts, List.mem_filter, List.mem_range'_1]
    constructor
    · rintro ⟨⟨ha, hb⟩, hc⟩
      exact ⟨ha, by omega, by simpa using hc⟩
    · rintro ⟨ha, hb, hc⟩
      exact ⟨⟨ha, by omega⟩, by simpa using hc⟩
  have hsorted : (missing_parts maxN dp).Sorted (· < ·) :=
    List.Pairwise.filter _ (List.pairwise_lt_range' 1 maxN)
  have heq : retryOrder maxN dp = missing_parts maxN dp := by
    rw [retryOrder]
    exact List.mergeSort_eq_self (hsorted.imp fun h => le_of_lt h)
  exact ⟨hmem, heq, heq ▸ hsorted⟩

/-- **C7.**  For one missing part, the retrieval loop makes at most 3
attempts; it stops as soon as the part has appeared in `downloaded_parts`
after some attempt; it reports success exactly when the part ended up in the
set, reports failure only after all 3 attempts, and the resulting set is the
accumulation of exactly the attempts that ran. -/
theorem claim_C7 (p : ℕ) (dp : Finset ℕ) (env : ℕ → Finset ℕ) :
    (retrieveMissing p dp env).2.1 ≤ 3 ∧
    (∀ k, k < 3 → p ∈ setAfter dp env (k + 1) →
        (retrieveMissing p dp env).2.1 ≤ k + 1) ∧
    ((retrieveMissing p dp env).2.2 = true ↔ p ∈ (retrieveMissing p dp env).1) ∧
    ((retrieveMissing p dp env).2.2 = false → (retrieveMissing p dp env).2.1 = 3) ∧
    (retrieveMissing p dp env).1 = setAfter dp env (retrieveMissing p dp env).2.1 := by
  have e1 : setAfter dp env 1 = dp ∪ env 0 := by simp [setAfter]
  have e2 : setAfter dp env 2 = dp ∪ env 0 ∪ env 1 := by simp [setAfter, Finset.union_assoc]
  have e3 : setAfter dp env 3 = dp ∪ env 0 ∪ env 1 ∪ env 2 := by
    simp [setAfter, Finset.union_assoc]
  by_cases h1 : p ∈ dp ∪ env 0
  · have ha : attemptLoop p dp [env 0, env 1, env 2] = (dp ∪ env 0, 1) := by
      rw [attemptLoop, if_pos h1]
    have hr : retrieveMissing p dp env = (dp ∪ env 0, 1, decide (p ∈ dp ∪ env 0)) := by
      rw [retrieveMissing, ha]
    rw [hr]
    dsimp only
    refine ⟨by omega, fun k hk _ => by omega, by simp, ?_, by rw [e1]⟩
    intro hfalse
    rw [decide_eq_false_iff_not] at hfalse
    exact absurd h1 hfalse
  · by_cases h2 : p ∈ dp ∪ env 0 ∪ env 1
    · have ha : attemptLoop p dp [env 0, env 1, env 2] = (dp ∪ env 0 ∪ env 1, 2) := by
        rw [attemptLoop, if_neg h1, attemptLoop, if_pos h2]
      have hr : retrieveMissing p dp env =
          (dp ∪ env 0 ∪ env 1, 2, decide (p ∈ dp ∪ env 0 ∪ env 1)) := by
        rw [retrieveMissing, ha]
      rw [hr]
      dsimp only
      refine ⟨by omega, ?_, by simp, ?_, by rw [e2]⟩
      · intro k hk hp
        interval_cases k
        · rw [e1] at hp; exact absurd hp h1
        · omega
        · omega
      · intro hfalse
        rw [decide_eq_false_iff_not] at hfalse
        exact absurd h2 hfalse
    · have hinner : attemptLoop p (dp ∪ env 0 ∪ env 1) [env 2] =
          (dp ∪ env 0 ∪ env 1 ∪ env 2, 1) := by
        rw [attemptLoop]
        split_ifs with h3
        · rfl
        · rw [attemptLoop]
      have ha : attemptLoop p dp [env 0, env 1, env 2] =
          (dp ∪ env 0 ∪ env 1 ∪ env 2, 3) := by
        rw [attemptLoop, if_neg h1, attemptLoop, if_neg h2, hinner]
      have hr : retrieveMissing p dp env =
          (dp ∪ env 0 ∪ env 1 ∪ env 2, 3, decide (p ∈ dp ∪ env 0 ∪ env 1 ∪ env 2)) := by
        rw [retrieveMissing, ha]
      rw [hr]
      dsimp only
      refine ⟨by omega, ?_, by simp, fun _ => rfl, by rw [e3]⟩
      intro k hk hp
      interval_cases k
      · rw [e1] at hp; exact absurd hp h1
      · rw [e2] at hp; exact absurd hp h2
      · omega

/-- **C7 witness.**  The early-stop bound applied at a concrete input on
which the part appears during the first attempt. -/
theorem claim_C7_witness :
    (retrieveMissing 4 ∅ (fun _ => {4})).2.1 ≤ 0 + 1 :=
  (claim_C7 4 ∅ (fun _ => {4})).2.1 0 (by omega) (by decide)

/-! ### The forward-discovery loop of `run` -/

lemma fwdGo_spec (env : ℕ → Finset ℕ) (btn : ℕ → Bool) (dp0 : Finset ℕ) :
    ∀ (fuel i nnc : ℕ), nnc = nnpCount dp0 env i → nnc < 10 →
      i ≤ (fwdGo env btn fuel i nnc (setAfter dp0 env i)).2 ∧
      (fwdGo env btn fuel i nnc (setAfter dp0 env i)).2 ≤ i + fuel ∧
      (fwdGo env btn fuel i nnc (setAfter dp0 env i)).1 =
        setAfter dp0 env (fwdGo env btn fuel i nnc (setAfter dp0 env i)).2 ∧
      (∀ j, i ≤ j → j < (fwdGo env btn fuel i nnc (setAfter dp0 env i)).2 →
          btn j = true ∧ nnpCount dp0 env j < 10) ∧
      ((fwdGo env btn fuel i nnc (setAfter dp0 env i)).2 < i + fuel →
          btn (fwdGo env btn fuel i nnc (setAfter dp0 env i)).2 = false ∨
          nnpCount dp0 env (fwdGo env btn fuel i nnc (setAfter dp0 env i)).2 = 10) := by
  intro fuel
  induction fuel with
  | zero =>
    intro i nnc _ _
    rw [fwdGo]
    exact ⟨le_refl i, by omega, rfl, fun j hj1 hj2 => by omega, fun h => by omega⟩
  | succ fuel ih =>
    intro i nnc h1 h2
    rw [fwdGo]
    by_cases hb : btn i = true
    · rw [if_pos hb]
      have hrw : setAfter dp0 env i ∪ env i = setAfter dp0 env (i + 1) := rfl
      by_cases hc : (setAfter dp0 env i ∪ env i).card = (setAfter dp0 env i).card
      · rw [if_pos hc]
        have hcnt : nnpCount dp0 env (i + 1) = nnc + 1 := by
          rw [nnpCount, ← hrw, if_pos hc, ← h1]
        by_cases h10 : 10 ≤ nnc + 1
        · rw [if_pos h10]
          dsimp only
          refine ⟨by omega, by omega, hrw, ?_, ?_⟩
          · intro j hj1 hj2
            have hj : j = i := by omega
            subst hj
            exact ⟨hb, h1 ▸ h2⟩
          · intro _
            right
            rw [hcnt]
            omega
        · rw [if_neg h10, hrw]
          obtain ⟨a1, a2, a3, a4, a5⟩ := ih (i + 1) (nnc + 1) hcnt.symm (by omega)
          refine ⟨by omega, by omega, a3, ?_, ?_⟩
          · intro j hj1 hj2
            rcases Nat.eq_or_lt_of_le hj1 with rfl | hlt
            · exact ⟨hb, h1 ▸ h2⟩
            · exact a4 j (by omega) hj2
          · intro hlt
            exact a5 (by omega)
      · rw [if_neg hc]
        have hcnt : nnpCount dp0 env (i + 1) = 0 := by rw [nnpCount, ← hrw, if_neg hc]
        rw [hrw]
        obtain ⟨a1, a2, a3, a4, a5⟩ := ih (i + 1) 0 hcnt.symm (by omega)
        refine ⟨by omega, by omega, a3, ?_, ?_⟩
        · intro j hj1 hj2
          rcases Nat.eq_or_lt_of_le hj1 with rfl | hlt
          · exact ⟨hb, h1 ▸ h2⟩
          · exact a4 j (by omega) hj2
        · intro hlt
          exact a5 (by omega)
    · rw [if_neg hb]
      dsimp only
      refine ⟨le_refl i, by omega, rfl, fun j hj1 hj2 => by omega, fun _ => Or.inl ?_⟩
      simpa using hb

/-- **C9.**  The forward-discovery loop executes at most 500 click
iterations; every executed iteration had a working Next-Chapter button and a
no-progress counter still below 10; if it stops before the 500th iteration,
then either the button disappeared at the stopping point or the counter had
just reached exactly 10 consecutive no-progress iterations (the counter
resetting to 0 whenever an iteration adds new parts, per `nnpCount`); and the
final `downloaded_parts` is the accumulation of exactly the executed
iterations. -/
theorem claim_C9 (env : ℕ → Finset ℕ) (btn : ℕ → Bool) (dp0 : Finset ℕ) :
    (forwardPass env btn dp0).2 ≤ 500 ∧
    (forwardPass env btn dp0).1 = setAfter dp0 env (forwardPass env btn dp0).2 ∧
    (∀ j, j < (forwardPass env btn dp0).2 → btn j = true ∧ nnpCount dp0 env j < 10) ∧
    ((forwardPass env btn dp0).2 < 500 →
        btn (forwardPass env btn dp0).2 = false ∨
          nnpCount dp0 env (forwardPass env btn dp0).2 = 10) := by
  have hfp : forwardPass env btn dp0 = fwdGo env btn 500 0 0 (setAfter dp0 env 0) := rfl
  obtain ⟨a1, a2, a3, a4, a5⟩ := fwdGo_spec env btn dp0 500 0 0 rfl (by omega)
  rw [hfp]
  exact ⟨by omega, a3, fun j hj => a4 j (by omega) hj, fun h => a5 (by omega)⟩

/-- Concrete environment for the C9 witness: no downloads ever happen. -/
def envW : ℕ → Finset ℕ := fun _ => ∅

/-- Concrete button oracle for the C9 witness: the button vanishes at
iteration 2. -/
def btnW : ℕ → Bool := fun i => decide (i < 2)

/-- **C9 witness.**  The iteration bound applied at a concrete input. -/
theorem claim_C9_witness : (forwardPass envW btnW ∅).2 ≤ 500 :=
  (claim_C9 envW btnW ∅).1

/-! ### `load_config` -/

lemma truthy_isSome {o : Option String} (h : truthy o = true) : o.isSome = true := by
  cases o with
  | none => exact absurd h (by simp [truthy])
  | some s => rfl

/-- **C10.**  `load_config` returns a configuration in which all four
required keys are present (each field that was absent or empty having been
prompted, with one save per prompt), and the download directory is created
exactly when it did not already exist, so that it exists afterwards. -/
theorem claim_C10 (init : LibbyConfig) (inCard inPass inLib inDir defaultDir : String)
    (dirExists : String → Bool) :
    (load_config init inCard inPass inLib inDir defaultDir dirExists).1.card.isSome = true ∧
    (load_config init inCard inPass inLib inDir defaultDir dirExists).1.password.isSome = true ∧
    (load_config init inCard inPass inLib inDir defaultDir dirExists).1.library.isSome = true ∧
    (load_config init inCard inPass inLib inDir defaultDir dirExists).1.dir.isSome = true ∧
    (load_config init inCard inPass inLib inDir defaultDir dirExists).2.1.length =
      ((if truthy init.card then 0 else 1) + (if truthy init.password then 0 else 1) +
        (if truthy init.library then 0 else 1) + (if truthy init.dir then 0 else 1)) ∧
    ((load_config init inCard inPass inLib inDir defaultDir dirExists).2.2 = true ↔
        dirExists
          ((load_config init inCard inPass inLib inDir defaultDir dirExists).1.dir.getD "") =
          false) ∧
    (dirExists
        ((load_config init inCard inPass inLib inDir defaultDir dirExists).1.dir.getD "") ||
      (load_config init inCard inPass inLib inDir defaultDir dirExists).2.2) = true := by
  by_cases h1 : truthy init.card = true <;>
    by_cases h2 : truthy init.password = true <;>
      by_cases h3 : truthy init.library = true <;>
        by_cases h4 : truthy init.dir = true <;>
          simp [load_config, h1, h2, h3, h4, truthy_isSome]

/-- **C10 witness.**  Key presence evaluated on an initially empty
configuration. -/
theorem claim_C10_witness :
    (load_config ⟨none, none, none, none⟩ "c" "p" "l" "" "dl" (fun _ => false)).1.dir.isSome
      = true :=
  (claim_C10 ⟨none, none, none, none⟩ "c" "p" "l" "" "dl" (fun _ => false)).2.2.2.1

end LibbyDownload

